import Mathlib

/-!
# rd_themis: a shallow embedding of `src/rd_themis.c`

The Redis module stores values sealed with Themis under a key: "secure cell"
(passphrase) and "secure message" (public key, with an ephemeral key pair whose
public half travels in front of the ciphertext).

Conventions of the embedding

* Target: LP64, little-endian. `size_t` and `long` are 64 bits, `uint32_t` 32 bits,
  `uint8_t` 8 bits. Machine integers are `Nat`, reduced by `% SIZE_T`, `% UINT32`,
  `% UINT8` where the C code computes or converts in that width.
* A `(pointer, length)` pair that is only read inside its length is a `Bytes` value;
  passing a `size_t` length to a `uint32_t` parameter is `u32view`.
* `smessage_decrypt` dereferences its buffer before looking at the length, so there
  the buffer and the length stay separate and every offset that is read is logged;
  a read past the end yields the bytes of `Env.beyond`.
* libthemis, the allocator and the key space are not part of the repository: the
  primitives are fields of `Env`, the key space is the `Store` model below.
-/

namespace RdThemis

abbrev Bytes := List UInt8

/-- Number of values of `size_t` (and of pointers, `long`) on the target. -/
def SIZE_T : Nat := 2 ^ 64

/-- Number of values of `uint32_t`. -/
def UINT32 : Nat := 2 ^ 32

/-- Number of values of `uint8_t`. -/
def UINT8 : Nat := 2 ^ 8

/-- Status codes of libthemis that the module tells apart: it only ever compares
against `THEMIS_SUCCESS` and `THEMIS_BUFFER_TOO_SMALL`. -/
inductive themis_status where
  | THEMIS_SUCCESS
  | THEMIS_BUFFER_TOO_SMALL
  | THEMIS_FAIL
  deriving DecidableEq, Repr

open themis_status

/-- What one call of a libthemis primitive leaves behind: the status, the value of
`*out_length`, and the bytes it wrote at the start of the output buffer. -/
structure PrimOut where
  status : themis_status
  len : Nat
  out : Bytes
  deriving DecidableEq, Repr

/-- A libthemis primitive `f(key, key_len, aux, aux_len, msg, msg_len, out, &out_len)`.
The last argument is `none` for a NULL output buffer (the sizing call) and
`some cap` for a buffer with `*out_len = cap`. -/
abbrev Prim := Bytes → Bytes → Bytes → Option Nat → PrimOut

/-- Everything the module links against, as a black box. -/
structure Env where
  /-- `themis_secure_cell_encrypt_seal(key, context, message, out)` -/
  themis_secure_cell_encrypt_seal : Prim
  /-- `themis_secure_cell_decrypt_seal(key, context, sealed, out)` -/
  themis_secure_cell_decrypt_seal : Prim
  /-- `themis_secure_message_wrap(private_key, peer_public_key, message, out)` -/
  themis_secure_message_wrap : Prim
  /-- `themis_secure_message_unwrap(private_key, peer_public_key, wrapped, out)` -/
  themis_secure_message_unwrap : Prim
  /-- `themis_gen_ec_key_pair` with the two buffer capacities: status, private key,
  public key. -/
  themis_gen_ec_key_pair : Nat → Nat → themis_status × Bytes × Bytes
  /-- `malloc(n) != NULL` -/
  malloc : Nat → Bool
  /-- Byte found `i` positions after the end of a string buffer. -/
  beyond : Nat → UInt8
  /-- Largest string length `RedisModule_StringTruncate` accepts. -/
  string_max : Nat

/-! ## Key space -/

abbrev Key := Bytes

/-- Value held under a key: a plain string, or any other Redis type. -/
inductive Value where
  | string (s : Bytes)
  | other
  deriving DecidableEq, Repr

abbrev Store := Key → Option Value

/-- Modelled from the spec: `delete(key)` of the store adapter (section 6.2),
`RedisModule_DeleteKey` on a key opened for writing. The key is removed whatever
its type. -/
def RedisModule_DeleteKey (st : Store) (key : Key) : Store :=
  fun k => if k = key then none else st k

/-- Store with the string `s` under `key`. -/
def setString (st : Store) (key : Key) (s : Bytes) : Store :=
  fun k => if k = key then some (Value.string s) else st k

/-- Resize a string to `newlen` bytes: cut, or pad with zero bytes. -/
def resize (s : Bytes) (newlen : Nat) : Bytes :=
  s.take newlen ++ List.replicate (newlen - s.length) 0

/-- Modelled from the spec: `truncate(handle, new_length) -> Result` of the store
adapter (section 6.2), `RedisModule_StringTruncate` on a key opened for writing.
`none` is `REDISMODULE_ERR`: the key holds a value that is not a string, or the
length is over the limit. Otherwise the key holds a string of exactly `newlen`
bytes. -/
def RedisModule_StringTruncate (env : Env) (st : Store) (key : Key) (newlen : Nat) :
    Option Store :=
  match st key with
  | some Value.other => none
  | some (Value.string s) =>
    if env.string_max < newlen then none else some (setString st key (resize s newlen))
  | none =>
    if env.string_max < newlen then none else some (setString st key (resize [] newlen))

/-- Modelled from the spec: `read_bytes(handle)` / `write_bytes_mut(handle)` of the
store adapter, `RedisModule_StringDMA`: the bytes of the string under the key (and
through them its length). -/
def RedisModule_StringDMA (st : Store) (key : Key) : Bytes :=
  match st key with
  | some (Value.string s) => s
  | _ => []

/-- Modelled from the spec: the effect on the store of writing through the pointer
returned by `RedisModule_StringDMA(key, &len, REDISMODULE_WRITE)`. -/
def dmaStore (st : Store) (key : Key) (buf : Bytes) : Store :=
  match st key with
  | some (Value.string _) => setString st key buf
  | _ => st

/-! ## Memory helpers -/

/-- `memcpy(buf + off, src, src.length)` into a buffer of fixed size: the size of the
buffer never changes, bytes that would land past its end are not part of it. -/
def writeAt (buf : Bytes) (off : Nat) (src : Bytes) : Bytes :=
  (buf.take off ++ src ++ buf.drop (off + src.length)).take buf.length

/-- The `n` bytes found at `data + off`: bytes of the buffer while inside it, then
whatever lies behind it. -/
def peekN (env : Env) (data : Bytes) (off n : Nat) : Bytes :=
  let inb := (data.drop off).take n
  inb ++ (List.range (n - inb.length)).map
    (fun i => env.beyond (off + inb.length + i - data.length))

/-- Offsets `off, off+1, .., off+n-1`. -/
def span (off n : Nat) : List Nat := (List.range n).map (fun i => off + i)

/-- The four bytes `memcpy(dst, &x, sizeof(uint32_t))` writes on a little-endian
target. -/
def le32 (x : Nat) : Bytes :=
  [UInt8.ofNat x, UInt8.ofNat (x / 256), UInt8.ofNat (x / 65536), UInt8.ofNat (x / 16777216)]

/-- Value of `*((const uint32_t*)p)` for the bytes at `p`, little-endian. -/
def u32le (bs : Bytes) : Nat :=
  match bs with
  | b0 :: b1 :: b2 :: b3 :: _ =>
    b0.toNat + 256 * b1.toNat + 65536 * b2.toNat + 16777216 * b3.toNat
  | _ => 0

/-- What a callee sees of a buffer whose `size_t` length is passed to a `uint32_t`
length parameter. -/
def u32view (b : Bytes) : Bytes := b.take (b.length % UINT32)

/-! ## Secure cell -/

/-- Result of a decrypt helper: return code, the malloc-ed plaintext buffer when one
is handed to the caller, and the length left in `*decrypted_data_len`. -/
structure DecOut where
  code : Int
  decrypted_data : Option Bytes
  decrypted_data_len : Nat
  deriving DecidableEq, Repr

/-- Embeds `scell_encrypt` (rd_themis.c:24-44): return code and the store afterwards. -/
def scell_encrypt (env : Env) (st : Store) (key_name : Key) (pass message : Bytes) :
    Int × Store :=
  let r := env.themis_secure_cell_encrypt_seal pass [] message none
  if r.status ≠ THEMIS_BUFFER_TOO_SMALL then (-1, st)
  else
    let encrypted_data_len := r.len
    match RedisModule_StringTruncate env st key_name encrypted_data_len with
    | none => (-1, RedisModule_DeleteKey st key_name)
    | some st1 =>
      let encrypted_data := RedisModule_StringDMA st1 key_name
      let res := env.themis_secure_cell_encrypt_seal pass [] message
        (some encrypted_data.length)
      let st2 := dmaStore st1 key_name (writeAt encrypted_data 0 res.out)
      if res.status ≠ THEMIS_SUCCESS then (-1, RedisModule_DeleteKey st2 key_name)
      else (0, st2)

/-- Embeds `scell_decrypt` (rd_themis.c:46-75). -/
def scell_decrypt (env : Env) (st : Store) (key_name : Key) (pass : Bytes) : DecOut :=
  match st key_name with
  | none => ⟨-2, none, 0⟩
  | some Value.other => ⟨-3, none, 0⟩
  | some (Value.string message) =>
    let r := env.themis_secure_cell_decrypt_seal pass [] message none
    if r.status ≠ THEMIS_BUFFER_TOO_SMALL then ⟨-1, none, r.len⟩
    else if env.malloc r.len = false then ⟨-1, none, r.len⟩
    else
      let r2 := env.themis_secure_cell_decrypt_seal pass [] message (some r.len)
      if r2.status ≠ THEMIS_SUCCESS then ⟨-1, none, r2.len⟩
      else ⟨0, some r2.out, r2.len⟩

/-! ## Secure message: the envelope codec -/

/-- Embeds `smessage_encrypt_len` (rd_themis.c:219-225). The buffers are the views
of the `uint32_t` length parameters. -/
def smessage_encrypt_len (env : Env) (data private_key public_key peer_public_key : Bytes) :
    Nat :=
  let r := env.themis_secure_message_wrap private_key peer_public_key data none
  if r.status ≠ THEMIS_BUFFER_TOO_SMALL then 0
  else (r.len + 4 + public_key.length) % SIZE_T

/-- Result of `smessage_encrypt`: return code, the output buffer afterwards, and
`*enc_data_length` afterwards. -/
structure EncOut where
  code : Int
  enc_data : Bytes
  enc_data_length : Nat
  deriving DecidableEq, Repr

/-- Embeds `smessage_encrypt` (rd_themis.c:228-240). `enc_data` is the output buffer,
`enc_data_length` the value of `*enc_data_length` on entry. -/
def smessage_encrypt (env : Env) (data private_key public_key peer_public_key : Bytes)
    (enc_data : Bytes) (enc_data_length : Nat) : EncOut :=
  let public_key_length := public_key.length
  if enc_data_length < (4 + public_key_length) % SIZE_T then ⟨-2, enc_data, enc_data_length⟩
  else
    let buf1 := writeAt enc_data 0 (le32 public_key_length)
    let buf2 := writeAt buf1 4 public_key
    let enc_len := (enc_data_length + SIZE_T - 4 - public_key_length) % SIZE_T
    let r := env.themis_secure_message_wrap private_key peer_public_key data (some enc_len)
    let buf3 := writeAt buf2 (4 + public_key_length) r.out
    if r.status ≠ THEMIS_SUCCESS then ⟨-2, buf3, enc_data_length⟩
    else ⟨0, buf3, (r.len + 4 + public_key_length) % UINT32⟩

/-- Arguments of one call of `themis_secure_message_unwrap`. -/
structure UnwrapCall where
  private_key : Bytes
  public_key : Bytes
  wrapped : Bytes
  deriving DecidableEq, Repr

/-- Result of `smessage_decrypt`, with its trace: the offsets into `data` that were
read (by the function or through a region handed to unwrap) and the calls of unwrap. -/
structure SmDecOut where
  code : Int
  dec_data : Option Bytes
  dec_data_length : Nat
  reads : List Nat
  unwrap_calls : List UnwrapCall
  deriving DecidableEq, Repr

/-- Embeds `smessage_decrypt` (rd_themis.c:243-264). `data` is the buffer behind the
pointer, `data_length` the length the caller passed. `dec_data_length` is the
`size_t` object of `smessage_d`: unwrap writes it in full, `malloc` reads its low
32 bits. -/
def smessage_decrypt (env : Env) (data : Bytes) (data_length : Nat) (private_key : Bytes) :
    SmDecOut :=
  let public_key_length := u32le (peekN env data 0 4)
  if data_length ≤ (public_key_length + 4) % SIZE_T then ⟨-1, none, 0, span 0 4, []⟩
  else
    let public_key := peekN env data 4 public_key_length
    let data_length_ := (data_length + SIZE_T - public_key_length - 4) % SIZE_T
    let data_ := peekN env data (4 + public_key_length) data_length_
    let reads := span 0 4 ++ span 4 public_key_length ++ span (4 + public_key_length) data_length_
    let call : UnwrapCall := ⟨private_key, public_key, data_⟩
    let r := env.themis_secure_message_unwrap private_key public_key data_ none
    if r.status ≠ THEMIS_BUFFER_TOO_SMALL then ⟨-1, none, r.len, reads, [call]⟩
    else if env.malloc (r.len % UINT32) = false then ⟨-2, none, r.len, reads, [call]⟩
    else
      let r2 := env.themis_secure_message_unwrap private_key public_key data_ (some r.len)
      if r2.status ≠ THEMIS_SUCCESS then ⟨-1, none, r2.len, reads, [call, call]⟩
      else ⟨0, some r2.out, r2.len, reads, [call, call]⟩

/-- Embeds `smessage_dec` (rd_themis.c:266-268). Its `data_length` parameter is a
`uint8_t`: the caller's length arrives reduced to 8 bits. -/
def smessage_dec (env : Env) (private_key data : Bytes) (data_length : Nat) : SmDecOut :=
  smessage_decrypt env data (data_length % UINT8) private_key

/-! ## Secure message: store operations -/

/-- Embeds `smessage_e` (rd_themis.c:270-296): return code and the store afterwards. -/
def smessage_e (env : Env) (st : Store) (key_name : Key) (public_key message : Bytes) :
    Int × Store :=
  let kp := env.themis_gen_ec_key_pair 10240 10240
  if kp.1 ≠ THEMIS_SUCCESS then (-1, st)
  else
    let new_private_key := u32view kp.2.1
    let new_public_key := u32view kp.2.2
    let encrypted_data_len := smessage_encrypt_len env (u32view message) new_private_key
      new_public_key (u32view public_key)
    if encrypted_data_len = 0 then (-1, st)
    else
      match RedisModule_StringTruncate env st key_name encrypted_data_len with
      | none => (-1, RedisModule_DeleteKey st key_name)
      | some st1 =>
        let encrypted_data := RedisModule_StringDMA st1 key_name
        let r := smessage_encrypt env (u32view message) new_private_key new_public_key
          (u32view public_key) encrypted_data (encrypted_data.length % UINT32)
        let st2 := dmaStore st1 key_name r.enc_data
        if r.code ≠ 0 then (-1, RedisModule_DeleteKey st2 key_name)
        else (0, st2)

/-- Embeds `smessage_d` (rd_themis.c:361-380). The trace of the codec is kept. -/
def smessage_d (env : Env) (st : Store) (key_name : Key) (private_key : Bytes) : SmDecOut :=
  match st key_name with
  | none => ⟨-2, none, 0, [], []⟩
  | some Value.other => ⟨-3, none, 0, [], []⟩
  | some (Value.string message) =>
    let r := smessage_dec env (u32view private_key) message message.length
    if r.code ≠ 0 then ⟨-1, none, r.dec_data_length, r.reads, r.unwrap_calls⟩
    else ⟨0, r.dec_data, r.dec_data_length, r.reads, r.unwrap_calls⟩

/-! ## Command handlers (synchronous) -/

/-- Reply sent to the client through the `RedisModule_ReplyWith...` calls. -/
inductive Reply where
  | WrongArity
  | Error (msg : String)
  | SimpleString (msg : String)
  | LongLong (n : Int)
  | StringBuffer (b : Bytes)
  deriving DecidableEq, Repr

/-- Modelled from the spec: the wrong-type error of section 6.1, the text of
`REDISMODULE_ERRORMSG_WRONGTYPE` in `redismodule.h`. -/
def REDISMODULE_ERRORMSG_WRONGTYPE : String :=
  "WRONGTYPE Operation against a key holding the wrong kind of value"

/-- Modelled from the spec: return value of a handler that served the command,
`REDISMODULE_OK` of `redismodule.h` (the header is not among the sources). -/
def REDISMODULE_OK : Int := 0

/-- Modelled from the spec: return value of a handler that failed, `REDISMODULE_ERR`
of `redismodule.h` (the header is not among the sources). -/
def REDISMODULE_ERR : Int := 1

/-- Outcome of a command handler: the reply, the handler's return value and the store. -/
structure CmdOut where
  reply : Reply
  ret : Int
  store : Store

/-- Embeds `cmd_scell_seal_encrypt` (rd_themis.c:77-91); `argv.length` is `argc`. -/
def cmd_scell_seal_encrypt (env : Env) (st : Store) (argv : List Bytes) : CmdOut :=
  match argv with
  | [_, key_name, pass, message] =>
    let r := scell_encrypt env st key_name pass message
    if r.1 ≠ 0 then ⟨Reply.Error "ERR secure seal encryption failed", REDISMODULE_ERR, r.2⟩
    else ⟨Reply.SimpleString "OK", REDISMODULE_OK, r.2⟩
  | _ => ⟨Reply.WrongArity, REDISMODULE_ERR, st⟩

/-- Reply of `cmd_scell_seal_decrypt` for a result of `scell_decrypt`: the `switch`
of rd_themis.c:103-116. -/
def scell_decrypt_switch (res : Int) (decrypted_data : Option Bytes)
    (decrypted_data_len : Nat) : Reply × Int :=
  if res = -2 then (Reply.LongLong 0, REDISMODULE_OK)
  else if res = -3 then (Reply.Error REDISMODULE_ERRORMSG_WRONGTYPE, REDISMODULE_ERR)
  else if res = 0 then
    (Reply.StringBuffer ((decrypted_data.getD []).take decrypted_data_len), REDISMODULE_OK)
  else (Reply.Error "ERR secure seal decryption failed", REDISMODULE_ERR)

/-- Embeds `cmd_scell_seal_decrypt` (rd_themis.c:93-117). -/
def cmd_scell_seal_decrypt (env : Env) (st : Store) (argv : List Bytes) : CmdOut :=
  match argv with
  | [_, key_name, pass] =>
    let r := scell_decrypt env st key_name pass
    let o := scell_decrypt_switch r.code r.decrypted_data r.decrypted_data_len
    ⟨o.1, o.2, st⟩
  | _ => ⟨Reply.WrongArity, REDISMODULE_OK, st⟩

/-- Reply of `cmd_smessage_decrypt` for a result of `smessage_d`: the `switch` of
rd_themis.c:392-405. -/
def smessage_decrypt_switch (res : Int) (decrypted_data : Option Bytes)
    (decrypted_data_len : Nat) : Reply × Int :=
  if res = -2 then (Reply.LongLong 0, REDISMODULE_OK)
  else if res = -3 then (Reply.Error REDISMODULE_ERRORMSG_WRONGTYPE, REDISMODULE_ERR)
  else if res = 0 then
    (Reply.StringBuffer ((decrypted_data.getD []).take decrypted_data_len), REDISMODULE_OK)
  else (Reply.Error "ERR secure message decryption failed", REDISMODULE_ERR)

/-- Size the sizing call of seal reports for `(pass, message)`, empty context. -/
def sealedSize (env : Env) (pass message : Bytes) : Nat :=
  (env.themis_secure_cell_encrypt_seal pass [] message none).len

/-- Bytes the fill call of seal writes for `(pass, message)`, empty context, into a
buffer of the size the sizing call reported. -/
def sealed (env : Env) (pass message : Bytes) : Bytes :=
  (env.themis_secure_cell_encrypt_seal pass [] message (some (sealedSize env pass message))).out

/-- The contract `unseal(P, seal(P, M)) = M` with empty associated data, through the
size-then-fill protocol: seal fills exactly the size it reported; on the sealed bytes
the sizing call of unseal answers, and the fill call with the reported capacity
succeeds with exactly `M`. -/
def SealContract (env : Env) (pass message : Bytes) : Prop :=
  (sealed env pass message).length = sealedSize env pass message ∧
  (env.themis_secure_cell_decrypt_seal pass [] (sealed env pass message) none).status
    = THEMIS_BUFFER_TOO_SMALL ∧
  env.themis_secure_cell_decrypt_seal pass [] (sealed env pass message)
    (some (env.themis_secure_cell_decrypt_seal pass [] (sealed env pass message) none).len)
    = ⟨THEMIS_SUCCESS, message.length, message⟩

/-- Unseal of `c` under `pass` fails: the sizing call does not answer with a size, or
the fill call does not succeed. -/
def UnsealFails (env : Env) (pass c : Bytes) : Prop :=
  (env.themis_secure_cell_decrypt_seal pass [] c none).status ≠ THEMIS_BUFFER_TOO_SMALL ∨
  (env.themis_secure_cell_decrypt_seal pass [] c
    (some (env.themis_secure_cell_decrypt_seal pass [] c none).len)).status ≠ THEMIS_SUCCESS

/-! ## A small instance of the black box, for concrete runs -/

/-- Size-then-fill answer of a primitive whose output is `bytes`. -/
def triState (bytes : Bytes) (cap : Option Nat) : PrimOut :=
  match cap with
  | none => ⟨THEMIS_BUFFER_TOO_SMALL, bytes.length, []⟩
  | some c =>
    if c < bytes.length then ⟨THEMIS_BUFFER_TOO_SMALL, bytes.length, []⟩
    else ⟨THEMIS_SUCCESS, bytes.length, bytes⟩

/-- Toy seal and wrap: the key the receiver must hold, then the message. -/
def toySeal : Prim := fun key _ message cap => triState (key ++ message) cap

/-- Toy wrap: the peer key stands in front of the message. -/
def toyWrap : Prim := fun _ peer_public_key message cap =>
  triState (peer_public_key ++ message) cap

/-- Toy unseal and unwrap: succeeds when the sealed bytes start with the key. A toy
key pair has equal halves. -/
def toyUnseal : Prim := fun key _ sealed cap =>
  if sealed.take key.length = key then triState (sealed.drop key.length) cap
  else ⟨THEMIS_FAIL, 0, []⟩

/-- Toy environment: allocation never fails, zero bytes behind every buffer, the
512 MB string limit of Redis, and `[1, 2, 3]` as both halves of the fresh key pair. -/
def toyEnv : Env where
  themis_secure_cell_encrypt_seal := toySeal
  themis_secure_cell_decrypt_seal := toyUnseal
  themis_secure_message_wrap := toyWrap
  themis_secure_message_unwrap := toyUnseal
  themis_gen_ec_key_pair := fun _ _ => (THEMIS_SUCCESS, [1, 2, 3], [1, 2, 3])
  malloc := fun _ => true
  beyond := fun _ => 0
  string_max := 536870912

/-- The empty key space. -/
def emptyStore : Store := fun _ => none

/-- A message of the largest length a `uint32_t` length parameter can carry. -/
def bigMessage : Bytes := List.replicate 4294967295 0

/-- An output buffer of `2 ^ 32 + 7` bytes. -/
def bigBuffer : Bytes := List.replicate 4294967303 0

/-- An environment whose fill calls of seal and wrap fail after a successful sizing
call; everything else as in `toyEnv`. -/
def brokenFillEnv : Env where
  themis_secure_cell_encrypt_seal := fun key _ message cap =>
    match cap with
    | none => triState (key ++ message) none
    | some _ => ⟨THEMIS_FAIL, 0, []⟩
  themis_secure_cell_decrypt_seal := toyUnseal
  themis_secure_message_wrap := fun _ peer_public_key message cap =>
    match cap with
    | none => triState (peer_public_key ++ message) none
    | some _ => ⟨THEMIS_FAIL, 0, []⟩
  themis_secure_message_unwrap := toyUnseal
  themis_gen_ec_key_pair := fun _ _ => (THEMIS_SUCCESS, [1, 2, 3], [1, 2, 3])
  malloc := fun _ => true
  beyond := fun _ => 0
  string_max := 536870912

/-- A message of 248 bytes: with the 4-byte length field, the 3-byte toy public key
and the 1-byte toy peer key in front, its envelope has 256 bytes. -/
def message248 : Bytes := List.replicate 248 65

/-! ## Secure-message set handler and the completion callbacks of the blocking commands -/

/-- Reply of `cmd_scell_seal_encrypt` for a result of `scell_encrypt`: the test of
rd_themis.c:85-90. -/
def scell_encrypt_switch (res : Int) : Reply × Int :=
  if res ≠ 0 then (Reply.Error "ERR secure seal encryption failed", REDISMODULE_ERR)
  else (Reply.SimpleString "OK", REDISMODULE_OK)

/-- Reply of `cmd_smessage_encrypt` for a result of `smessage_e`: the `switch` of
rd_themis.c:307-313. -/
def smessage_encrypt_switch (res : Int) : Reply × Int :=
  if res = 0 then (Reply.SimpleString "OK", REDISMODULE_OK)
  else (Reply.Error "ERR secure message encryption failed", REDISMODULE_ERR)

/-- Embeds `cmd_smessage_encrypt` (rd_themis.c:298-314). -/
def cmd_smessage_encrypt (env : Env) (st : Store) (argv : List Bytes) : CmdOut :=
  match argv with
  | [_, key_name, public_key, message] =>
    let r := smessage_e env st key_name public_key message
    let o := smessage_encrypt_switch r.1
    ⟨o.1, o.2, r.2⟩
  | _ => ⟨Reply.WrongArity, REDISMODULE_OK, st⟩

/-- Embeds `scell_enc_reply` (rd_themis.c:119-126). `res` is the private data of the
blocked client, the `long` the worker passed to `RedisModule_UnblockClient`; the
second component is the value the callback returns, that of the reply call. -/
def scell_enc_reply (res : Int) : Reply × Int :=
  if res = 0 then (Reply.SimpleString "OK", REDISMODULE_OK)
  else (Reply.Error "ERR secure seal encryption failed", REDISMODULE_OK)

/-- Embeds `scell_dec_reply` (rd_themis.c:164-175). The private data is the array
`res[0]` (code), `res[1]` (plaintext buffer), `res[2]` (its length). -/
def scell_dec_reply (res0 : Int) (res1 : Option Bytes) (res2 : Nat) : Reply × Int :=
  if res0 = -2 then (Reply.LongLong 0, REDISMODULE_OK)
  else if res0 = -3 then (Reply.Error REDISMODULE_ERRORMSG_WRONGTYPE, REDISMODULE_OK)
  else if res0 = 0 then (Reply.StringBuffer ((res1.getD []).take res2), REDISMODULE_OK)
  else (Reply.Error "ERR secure seal decryption failed", REDISMODULE_OK)

/-- Embeds `smessage_enc_reply` (rd_themis.c:316-323). -/
def smessage_enc_reply (res : Int) : Reply × Int :=
  if res = 0 then (Reply.SimpleString "OK", REDISMODULE_OK)
  else (Reply.Error "ERR secure seal encryption failed", REDISMODULE_OK)

/-- Embeds `smessage_dec_reply` (rd_themis.c:408-419). -/
def smessage_dec_reply (res0 : Int) (res1 : Option Bytes) (res2 : Nat) : Reply × Int :=
  if res0 = -2 then (Reply.LongLong 0, REDISMODULE_OK)
  else if res0 = -3 then (Reply.Error REDISMODULE_ERRORMSG_WRONGTYPE, REDISMODULE_OK)
  else if res0 = 0 then (Reply.StringBuffer ((res1.getD []).take res2), REDISMODULE_OK)
  else (Reply.Error "ERR secure message decryption failed", REDISMODULE_OK)

/-- Embeds the work of `smessage_enc_thread` (rd_themis.c:329-341): the code it hands
to `RedisModule_UnblockClient`, and the store afterwards. `argv` has passed the arity
check of `cmd_smessage_encrypt_block`. -/
def smessage_enc_thread (env : Env) (st : Store) (argv : List Bytes) : Int × Store :=
  smessage_e env st (argv.getD 1 []) (argv.getD 2 []) (argv.getD 3 [])

/-! ## What failing to decode a stored secure message means -/

theorem mem_span (off n i : Nat) : i ∈ span off n ↔ off ≤ i ∧ i < off + n := by
  unfold span
  simp only [List.mem_map, List.mem_range]
  constructor
  · rintro ⟨j, hj, rfl⟩
    omega
  · rintro ⟨h1, h2⟩
    exact ⟨i - off, by omega, by omega⟩

theorem u32le_lt (bs : Bytes) : u32le bs < UINT32 := by
  unfold u32le UINT32
  split
  · rename_i b0 b1 b2 b3 _
    have h0 := b0.toNat_lt
    have h1 := b1.toNat_lt
    have h2 := b2.toNat_lt
    have h3 := b3.toNat_lt
    omega
  · norm_num

theorem guard_no_wrap (k : Nat) (hk : k < UINT32) : (k + 4) % SIZE_T = 4 + k := by
  unfold UINT32 at hk
  unfold SIZE_T
  omega

/-! ## C2: the length guard of `smessage_decrypt` -/

/-- C2. For every buffer, every passed length `L` and every key, with `k` the
public-key length declared by the first four bytes (always a 32-bit value):
`smessage_decrypt` calls unwrap exactly when `4 + k < L`, computed without
wrap-around; when `L ≤ 4 + k` it returns `-1` with no plaintext and no call of
unwrap. -/
theorem smessage_decrypt_guard (env : Env) (data : Bytes) (L : Nat) (private_key : Bytes) :
    u32le (peekN env data 0 4) < UINT32 ∧
    (if L ≤ 4 + u32le (peekN env data 0 4) then
      smessage_decrypt env data L private_key = ⟨-1, none, 0, span 0 4, []⟩
    else (smessage_decrypt env data L private_key).unwrap_calls ≠ []) := by
  have hk := u32le_lt (peekN env data 0 4)
  have hg := guard_no_wrap _ hk
  refine ⟨hk, ?_⟩
  unfold smessage_decrypt
  simp only [hg]
  by_cases h : L ≤ 4 + u32le (peekN env data 0 4)
  · simp only [h, if_true]
  · simp only [h, if_false]
    split_ifs <;> simp

/-- The guard at the largest declared length: the four bytes `ff ff ff ff` declare
`k = 2 ^ 32 - 1`; with `L = 6` a 32-bit sum `k + 4` would wrap to 3 and let the
buffer through, the `size_t` sum does not, and the buffer is rejected. -/
theorem smessage_decrypt_guard_max_length (env : Env) (private_key : Bytes) :
    u32le (peekN env [255, 255, 255, 255, 1, 2] 0 4) = 4294967295 ∧
    (4294967295 + 4) % UINT32 = 3 ∧
    smessage_decrypt env [255, 255, 255, 255, 1, 2] 6 private_key
      = ⟨-1, none, 0, span 0 4, []⟩ := by
  have h : u32le (peekN env [255, 255, 255, 255, 1, 2] 0 4) = 4294967295 := rfl
  refine ⟨h, by decide, ?_⟩
  unfold smessage_decrypt
  simp only [h]
  have hg : (6 : Nat) ≤ (4294967295 + 4) % SIZE_T := by decide
  simp only [hg, if_true]

/-! ## C3: offsets read by `smessage_decrypt` -/

/-- With at least the four bytes of the length field in the buffer, and a passed
length that is not larger than the buffer, every offset read lies inside it. -/
theorem smessage_decrypt_reads_inside (env : Env) (data : Bytes) (L : Nat)
    (private_key : Bytes) (h4 : 4 ≤ data.length) (hL : L ≤ data.length) :
    ∀ i ∈ (smessage_decrypt env data L private_key).reads, i < data.length := by
  have hk := u32le_lt (peekN env data 0 4)
  have hg := guard_no_wrap _ hk
  have hL2 : L < SIZE_T ∨ SIZE_T ≤ L := Nat.lt_or_ge _ _
  intro i hi
  unfold smessage_decrypt at hi
  simp only [hg] at hi
  by_cases h : L ≤ 4 + u32le (peekN env data 0 4)
  · simp only [h, if_true, mem_span] at hi
    omega
  · simp only [h, if_false] at hi
    have hlen : (L + SIZE_T - u32le (peekN env data 0 4) - 4) % SIZE_T
        ≤ L - u32le (peekN env data 0 4) - 4 := by
      unfold UINT32 at hk
      unfold SIZE_T
      omega
    have hmem : i ∈ span 0 4 ++ span 4 (u32le (peekN env data 0 4)) ++
        span (4 + u32le (peekN env data 0 4))
          ((L + SIZE_T - u32le (peekN env data 0 4) - 4) % SIZE_T) := by
      split_ifs at hi <;> exact hi
    simp only [List.mem_append, mem_span] at hmem
    omega

/-- C3, at the failing inputs. For a buffer of 0, 1, 2 or 3 bytes, passed with its
own length, `smessage_decrypt` reads offset 3, which is not inside the buffer; the
same happens through `smessage_d` when the string stored under the key is empty. -/
theorem smessage_decrypt_reads_past_short_buffer (env : Env) (private_key : Bytes)
    (a b c : UInt8) :
    (smessage_decrypt env [] 0 private_key).reads = [0, 1, 2, 3] ∧
    (smessage_decrypt env [a] 1 private_key).reads = [0, 1, 2, 3] ∧
    (smessage_decrypt env [a, b] 2 private_key).reads = [0, 1, 2, 3] ∧
    (smessage_decrypt env [a, b, c] 3 private_key).reads = [0, 1, 2, 3] ∧
    ¬ (∀ i ∈ (smessage_decrypt env [] 0 private_key).reads, i < ([] : Bytes).length) ∧
    ¬ (∀ i ∈ (smessage_d env (setString emptyStore [107] []) [107] private_key).reads,
        i < (RedisModule_StringDMA (setString emptyStore [107] []) [107]).length) := by
  have key : ∀ (data pk : Bytes) (L : Nat), L < 4 →
      (smessage_decrypt env data L pk).reads = [0, 1, 2, 3] := by
    intro data pk L hL
    have hk := u32le_lt (peekN env data 0 4)
    have hg := guard_no_wrap _ hk
    unfold smessage_decrypt
    simp only [hg]
    have h : L ≤ 4 + u32le (peekN env data 0 4) := by omega
    simp only [h, if_true]
    rfl
  refine ⟨key _ _ _ (by decide), key _ _ _ (by decide), key _ _ _ (by decide),
    key _ _ _ (by decide), ?_, ?_⟩
  · rw [key _ _ _ (by decide)]
    intro h
    exact absurd (h 3 (by simp)) (by simp)
  · have hd : (smessage_d env (setString emptyStore [107] []) [107] private_key).reads
        = [0, 1, 2, 3] := by
      simp only [smessage_d, setString, if_true, smessage_dec]
      split_ifs <;> exact key _ _ _ (by simp [UINT8])
    rw [hd]
    intro h
    exact absurd (h 3 (by simp)) (by simp [RedisModule_StringDMA, setString])

/-! ## C4: `smessage_encrypt_len` against `smessage_encrypt` -/

theorem bigMessage_length : bigMessage.length = 4294967295 := List.length_replicate _ _

/-- C4, as amended. When `smessage_encrypt_len` returns a non-zero size `n`, the
sealed size plus header stays below `2 ^ 32`, and the fill call of wrap with the
capacity its sizing call reported succeeds and reports that size, then
`smessage_encrypt` called with capacity `n` (as `smessage_e` passes it, reduced to
32 bits) returns 0 and reports `n = 4 + public_key_length + sealed size`. -/
theorem smessage_encrypt_len_agrees (env : Env)
    (data private_key public_key peer_public_key enc_data : Bytes)
    (hn : smessage_encrypt_len env data private_key public_key peer_public_key ≠ 0)
    (hfit : (env.themis_secure_message_wrap private_key peer_public_key data none).len
      + 4 + public_key.length < UINT32)
    (hfill : (env.themis_secure_message_wrap private_key peer_public_key data
        (some (env.themis_secure_message_wrap private_key peer_public_key data none).len)).status
          = THEMIS_SUCCESS ∧
      (env.themis_secure_message_wrap private_key peer_public_key data
        (some (env.themis_secure_message_wrap private_key peer_public_key data none).len)).len
          = (env.themis_secure_message_wrap private_key peer_public_key data none).len) :
    smessage_encrypt_len env data private_key public_key peer_public_key
      = 4 + public_key.length
        + (env.themis_secure_message_wrap private_key peer_public_key data none).len ∧
    (smessage_encrypt env data private_key public_key peer_public_key enc_data
      (smessage_encrypt_len env data private_key public_key peer_public_key % UINT32)).code = 0 ∧
    (smessage_encrypt env data private_key public_key peer_public_key enc_data
      (smessage_encrypt_len env data private_key public_key peer_public_key % UINT32)).enc_data_length
      = smessage_encrypt_len env data private_key public_key peer_public_key := by
  have hst : (env.themis_secure_message_wrap private_key peer_public_key data none).status
      = THEMIS_BUFFER_TOO_SMALL := by
    by_contra h
    apply hn
    unfold smessage_encrypt_len
    simp only [ne_eq, h, not_false_eq_true, if_true]
  obtain ⟨hf1, hf2⟩ := hfill
  have hlen : smessage_encrypt_len env data private_key public_key peer_public_key
      = 4 + public_key.length
        + (env.themis_secure_message_wrap private_key peer_public_key data none).len := by
    unfold smessage_encrypt_len
    simp only [ne_eq, hst, not_true_eq_false, if_false]
    unfold UINT32 at hfit
    unfold SIZE_T
    omega
  have hmod : (4 + public_key.length
      + (env.themis_secure_message_wrap private_key peer_public_key data none).len) % UINT32
      = 4 + public_key.length
        + (env.themis_secure_message_wrap private_key peer_public_key data none).len := by
    apply Nat.mod_eq_of_lt
    omega
  have hguard : ¬ (4 + public_key.length
      + (env.themis_secure_message_wrap private_key peer_public_key data none).len
        < (4 + public_key.length) % SIZE_T) := by
    unfold UINT32 at hfit
    unfold SIZE_T
    omega
  have hcap : (4 + public_key.length
      + (env.themis_secure_message_wrap private_key peer_public_key data none).len
        + SIZE_T - 4 - public_key.length) % SIZE_T
      = (env.themis_secure_message_wrap private_key peer_public_key data none).len := by
    unfold UINT32 at hfit
    unfold SIZE_T
    omega
  rw [hlen, hmod]
  unfold smessage_encrypt
  simp only [hguard, if_false, hcap, hf1, hf2, ne_eq, not_true_eq_false]
  refine ⟨trivial, trivial, ?_⟩
  unfold UINT32 at hfit ⊢
  omega

/-- The amended C4 on the toy primitives: message of 2 bytes, key of 3 bytes, size 10. -/
theorem smessage_encrypt_len_agrees_witness :
    smessage_encrypt_len toyEnv [5, 6] [1, 2, 3] [1, 2, 3] [9] ≠ 0 ∧
    (toyEnv.themis_secure_message_wrap [1, 2, 3] [9] [5, 6] none).len + 4
      + ([1, 2, 3] : Bytes).length < UINT32 ∧
    smessage_encrypt_len toyEnv [5, 6] [1, 2, 3] [1, 2, 3] [9] = 10 ∧
    (smessage_encrypt toyEnv [5, 6] [1, 2, 3] [1, 2, 3] [9] (List.replicate 10 0)
      (10 % UINT32)).code = 0 ∧
    (smessage_encrypt toyEnv [5, 6] [1, 2, 3] [1, 2, 3] [9] (List.replicate 10 0)
      (10 % UINT32)).enc_data_length = 10 :=
  ⟨by decide, by decide,
    smessage_encrypt_len_agrees toyEnv [5, 6] [1, 2, 3] [1, 2, 3] [9] (List.replicate 10 0)
      (by decide) (by decide) (by decide)⟩

/-- The toy wrap on any message of `2 ^ 32 - 1` bytes, with any output buffer. -/
theorem toy_wrap_large (m buf : Bytes) (hm : m.length = 4294967295) :
    smessage_encrypt_len toyEnv m [1, 2, 3] [1, 2, 3] [9] = 4294967303 ∧
    (toyEnv.themis_secure_message_wrap [1, 2, 3] [9] m (some 4294967296)).status
      = THEMIS_SUCCESS ∧
    (toyEnv.themis_secure_message_wrap [1, 2, 3] [9] m (some 4294967296)).len
      = 4294967296 ∧
    (smessage_encrypt toyEnv m [1, 2, 3] [1, 2, 3] [9] buf (4294967303 % UINT32)).code = -2 := by
  refine ⟨?_, ?_, ?_, ?_⟩
  · simp [smessage_encrypt_len, toyEnv, toyWrap, triState, hm, SIZE_T]
  · simp [toyEnv, toyWrap, triState, hm]
  · simp [toyEnv, toyWrap, triState, hm]
  · simp [smessage_encrypt, toyEnv, toyWrap, triState, hm, SIZE_T, UINT32]

/-- C4, counterexample. The toy wrap needs `2 ^ 32` bytes for `bigMessage` and, given
that capacity, succeeds and reports exactly that size; `smessage_encrypt_len`
returns `n = 2 ^ 32 + 7`, which is not zero; `smessage_encrypt` on `bigBuffer`, of `n`
bytes, with the capacity reduced to 32 bits as `smessage_e` passes it, returns -2. -/
theorem smessage_encrypt_len_disagrees_4g :
    smessage_encrypt_len toyEnv bigMessage [1, 2, 3] [1, 2, 3] [9] = 4294967303 ∧
    (toyEnv.themis_secure_message_wrap [1, 2, 3] [9] bigMessage (some 4294967296)).status
      = THEMIS_SUCCESS ∧
    (toyEnv.themis_secure_message_wrap [1, 2, 3] [9] bigMessage (some 4294967296)).len
      = 4294967296 ∧
    (smessage_encrypt toyEnv bigMessage [1, 2, 3] [1, 2, 3] [9]
      bigBuffer (4294967303 % UINT32)).code = -2 :=
  toy_wrap_large bigMessage bigBuffer bigMessage_length


/-! ## Lemmas on buffers -/

theorem writeAt_length (buf : Bytes) (off : Nat) (src : Bytes) :
    (writeAt buf off src).length = buf.length := by
  unfold writeAt
  simp only [List.length_take, List.length_append, List.length_drop]
  omega

theorem take_writeAt (buf : Bytes) (off : Nat) (src : Bytes)
    (h : off + src.length ≤ buf.length) :
    (writeAt buf off src).take (off + src.length) = buf.take off ++ src := by
  unfold writeAt
  rw [List.take_take, Nat.min_eq_left h, List.append_assoc, ← List.append_assoc]
  apply List.take_left'
  simp only [List.length_append, List.length_take]
  omega

theorem take_writeAt_before (buf : Bytes) (off : Nat) (src : Bytes)
    (h : off + src.length ≤ buf.length) :
    (writeAt buf off src).take off = buf.take off := by
  have h1 := congrArg (List.take off) (take_writeAt buf off src h)
  rw [List.take_take, Nat.min_eq_left (Nat.le_add_right _ _)] at h1
  rw [h1]
  apply List.take_left'
  simp only [List.length_take]
  omega

theorem peekN_inside (env : Env) (data : Bytes) (off n : Nat) (h : off + n ≤ data.length) :
    peekN env data off n = (data.drop off).take n := by
  unfold peekN
  have hl : ((data.drop off).take n).length = n := by
    simp only [List.length_take, List.length_drop]
    omega
  simp only [hl, Nat.sub_self, List.range_zero, List.map_nil, List.append_nil]

theorem u32le_le32 (k : Nat) (hk : k < UINT32) : u32le (le32 k) = k := by
  unfold UINT32 at hk
  simp only [u32le, le32, UInt8.toNat, UInt8.ofNat, BitVec.toNat_ofNat]
  omega


/-- What a successful `smessage_encrypt` leaves in the buffer, given that the buffer
has the stated capacity and that wrap wrote `len` bytes inside the capacity it got. -/
theorem smessage_encrypt_ok (env : Env)
    (data private_key public_key peer_public_key enc_data : Bytes) (enc_data_length : Nat)
    (hcode : (smessage_encrypt env data private_key public_key peer_public_key enc_data
      enc_data_length).code = 0)
    (hcap : enc_data_length ≤ enc_data.length)
    (hlen32 : enc_data_length < UINT32)
    (hk : public_key.length < UINT32)
    (hprim : (env.themis_secure_message_wrap private_key peer_public_key data
        (some (enc_data_length - 4 - public_key.length))).out.length
        = (env.themis_secure_message_wrap private_key peer_public_key data
        (some (enc_data_length - 4 - public_key.length))).len ∧
      (env.themis_secure_message_wrap private_key peer_public_key data
        (some (enc_data_length - 4 - public_key.length))).len
        ≤ enc_data_length - 4 - public_key.length) :
    4 + public_key.length ≤ enc_data_length ∧
    (smessage_encrypt env data private_key public_key peer_public_key enc_data
      enc_data_length).enc_data_length
      = 4 + public_key.length + (env.themis_secure_message_wrap private_key peer_public_key
        data (some (enc_data_length - 4 - public_key.length))).out.length ∧
    (smessage_encrypt env data private_key public_key peer_public_key enc_data
      enc_data_length).enc_data.take
        (4 + public_key.length + (env.themis_secure_message_wrap private_key peer_public_key
          data (some (enc_data_length - 4 - public_key.length))).out.length)
      = le32 public_key.length ++ public_key
        ++ (env.themis_secure_message_wrap private_key peer_public_key data
          (some (enc_data_length - 4 - public_key.length))).out := by
  have hmod : (4 + public_key.length) % SIZE_T = 4 + public_key.length := by
    unfold UINT32 at hk
    unfold SIZE_T
    omega
  unfold smessage_encrypt at hcode ⊢
  simp only [hmod] at hcode ⊢
  by_cases hg : enc_data_length < 4 + public_key.length
  · simp only [hg, if_true] at hcode
    exact absurd hcode (by decide)
  · have hcapeq : (enc_data_length + SIZE_T - 4 - public_key.length) % SIZE_T
        = enc_data_length - 4 - public_key.length := by
      unfold UINT32 at hk hlen32
      unfold SIZE_T
      omega
    simp only [hg, if_false, hcapeq] at hcode ⊢
    obtain ⟨hp1, hp2⟩ := hprim
    generalize env.themis_secure_message_wrap private_key peer_public_key data
      (some (enc_data_length - 4 - public_key.length)) = r at hcode hp1 hp2 ⊢
    by_cases hs : r.status = THEMIS_SUCCESS
    · simp only [hs, ne_eq, not_true_eq_false, if_false]
      refine ⟨by omega, ?_, ?_⟩
      · unfold UINT32 at hlen32 ⊢
        omega
      · have hle32 : (le32 public_key.length).length = 4 := rfl
        have h1 : (writeAt enc_data 0 (le32 public_key.length)).take 4
            = le32 public_key.length := by
          have := take_writeAt enc_data 0 (le32 public_key.length) (by rw [hle32]; omega)
          simpa [hle32] using this
        have h2 : (writeAt (writeAt enc_data 0 (le32 public_key.length)) 4 public_key).take
            (4 + public_key.length) = le32 public_key.length ++ public_key := by
          rw [take_writeAt _ _ _ (by rw [writeAt_length]; omega), h1]
        rw [take_writeAt _ _ _ (by rw [writeAt_length, writeAt_length]; omega), h2]
    · simp only [hs, ne_eq, not_false_eq_true, if_true] at hcode
      exact absurd hcode (by decide)

/-- The four bytes at the start of an envelope are the length field. -/
theorem peek_envelope_header (env : Env) (public_key payload : Bytes) :
    peekN env (le32 public_key.length ++ public_key ++ payload) 0 4
      = le32 public_key.length := by
  have hle32 : (le32 public_key.length).length = 4 := rfl
  rw [peekN_inside _ _ _ _ (by simp only [List.length_append, hle32]; omega),
    List.drop_zero, List.append_assoc]
  exact List.take_left' hle32

/-- What `smessage_decrypt` does on an envelope `le32 k ++ public_key ++ payload` with
a non-empty payload, passed with its own length: the result in terms of unwrap on
exactly `public_key` and `payload`. -/
theorem smessage_decrypt_envelope (env : Env) (public_key payload private_key : Bytes)
    (hL : 4 + public_key.length + payload.length < UINT32)
    (hne : payload ≠ []) :
    smessage_decrypt env (le32 public_key.length ++ public_key ++ payload)
      (4 + public_key.length + payload.length) private_key
    = (let reads := span 0 4 ++ span 4 public_key.length
          ++ span (4 + public_key.length) payload.length
       let call : UnwrapCall := ⟨private_key, public_key, payload⟩
       let r := env.themis_secure_message_unwrap private_key public_key payload none
       if r.status ≠ THEMIS_BUFFER_TOO_SMALL then ⟨-1, none, r.len, reads, [call]⟩
       else if env.malloc (r.len % UINT32) = false then ⟨-2, none, r.len, reads, [call]⟩
       else
         let r2 := env.themis_secure_message_unwrap private_key public_key payload (some r.len)
         if r2.status ≠ THEMIS_SUCCESS then ⟨-1, none, r2.len, reads, [call, call]⟩
         else ⟨0, some r2.out, r2.len, reads, [call, call]⟩) := by
  have hpos : 0 < payload.length := List.length_pos.mpr hne
  have hle32 : (le32 public_key.length).length = 4 := rfl
  have hk : public_key.length < UINT32 := by omega
  have hdlen : (le32 public_key.length ++ public_key ++ payload).length
      = 4 + public_key.length + payload.length := by
    simp only [List.length_append, hle32]
  have hp0 := peek_envelope_header env public_key payload
  have hp1 : peekN env (le32 public_key.length ++ public_key ++ payload) 4 public_key.length
      = public_key := by
    rw [peekN_inside _ _ _ _ (by rw [hdlen]; omega), List.append_assoc,
      List.drop_left' hle32]
    exact List.take_left' rfl
  have hp2 : peekN env (le32 public_key.length ++ public_key ++ payload)
      (4 + public_key.length) payload.length = payload := by
    rw [peekN_inside _ _ _ _ (by rw [hdlen]),
      List.drop_left' (by simp only [List.length_append, hle32])]
    exact List.take_length payload
  have hg : ¬ (4 + public_key.length + payload.length
      ≤ (public_key.length + 4) % SIZE_T) := by
    unfold UINT32 at hL
    unfold SIZE_T
    omega
  have hdl : (4 + public_key.length + payload.length + SIZE_T - public_key.length - 4) % SIZE_T
      = payload.length := by
    unfold UINT32 at hL
    unfold SIZE_T
    omega
  unfold smessage_decrypt
  simp only [hp0, u32le_le32 _ hk, hg, if_false, hp1, hdl, hp2]


/-! ## C5: the wire format written by `smessage_encrypt` -/

/-- C5. Whenever `smessage_encrypt` returns 0 (on a buffer that has the stated 32-bit
capacity, with wrap having written `len` bytes inside the capacity it was given), the
first `*enc_data_length` bytes of the output buffer are the little-endian 4-byte
`public_key_length`, then the public key, then the bytes wrap wrote: nothing between
them and nothing after them. -/
theorem smessage_encrypt_wire_format (env : Env)
    (data private_key public_key peer_public_key enc_data : Bytes) (enc_data_length : Nat)
    (hcode : (smessage_encrypt env data private_key public_key peer_public_key enc_data
      enc_data_length).code = 0)
    (hcap : enc_data_length ≤ enc_data.length)
    (hlen32 : enc_data_length < UINT32)
    (hk : public_key.length < UINT32)
    (hprim : (env.themis_secure_message_wrap private_key peer_public_key data
        (some (enc_data_length - 4 - public_key.length))).out.length
        = (env.themis_secure_message_wrap private_key peer_public_key data
        (some (enc_data_length - 4 - public_key.length))).len ∧
      (env.themis_secure_message_wrap private_key peer_public_key data
        (some (enc_data_length - 4 - public_key.length))).len
        ≤ enc_data_length - 4 - public_key.length) :
    (smessage_encrypt env data private_key public_key peer_public_key enc_data
      enc_data_length).enc_data.take
        (smessage_encrypt env data private_key public_key peer_public_key enc_data
          enc_data_length).enc_data_length
      = le32 public_key.length ++ public_key
        ++ (env.themis_secure_message_wrap private_key peer_public_key data
          (some (enc_data_length - 4 - public_key.length))).out := by
  obtain ⟨_, h2, h3⟩ := smessage_encrypt_ok env data private_key public_key peer_public_key
    enc_data enc_data_length hcode hcap hlen32 hk hprim
  rw [h2]
  exact h3

/-- C5 on the toy primitives: a buffer of 12 bytes `ff`, capacity 10; the last two
bytes stay as they were. -/
theorem smessage_encrypt_wire_format_witness :
    (smessage_encrypt toyEnv [5, 6] [1, 2, 3] [1, 2, 3] [9] (List.replicate 12 255) 10).code = 0 ∧
    (smessage_encrypt toyEnv [5, 6] [1, 2, 3] [1, 2, 3] [9] (List.replicate 12 255) 10).enc_data
      = [3, 0, 0, 0, 1, 2, 3, 9, 5, 6, 255, 255] ∧
    (smessage_encrypt toyEnv [5, 6] [1, 2, 3] [1, 2, 3] [9] (List.replicate 12 255) 10).enc_data.take
        (smessage_encrypt toyEnv [5, 6] [1, 2, 3] [1, 2, 3] [9] (List.replicate 12 255)
          10).enc_data_length
      = le32 3 ++ [1, 2, 3] ++ [9, 5, 6] :=
  ⟨by decide, by decide,
    smessage_encrypt_wire_format toyEnv [5, 6] [1, 2, 3] [1, 2, 3] [9] (List.replicate 12 255) 10
      (by decide) (by decide) (by decide) (by decide) (by decide)⟩

/-! ## C9: the envelope describes itself -/

/-- C9. For a public key of 1 to 10240 bytes and a successful `smessage_encrypt`
whose wrap wrote a non-empty payload, `smessage_decrypt` applied to the bytes
produced passes the length guard, reads back exactly the key length, calls unwrap,
and every call of unwrap gets exactly the public key given to the encoder and
exactly the payload the encoder wrote. -/
theorem envelope_self_description (env : Env)
    (data private_key public_key peer_public_key enc_data : Bytes) (enc_data_length : Nat)
    (own_private_key : Bytes)
    (hk1 : 1 ≤ public_key.length) (hk2 : public_key.length ≤ 10240)
    (hcode : (smessage_encrypt env data private_key public_key peer_public_key enc_data
      enc_data_length).code = 0)
    (hcap : enc_data_length ≤ enc_data.length)
    (hlen32 : enc_data_length < UINT32)
    (hprim : (env.themis_secure_message_wrap private_key peer_public_key data
        (some (enc_data_length - 4 - public_key.length))).out.length
        = (env.themis_secure_message_wrap private_key peer_public_key data
        (some (enc_data_length - 4 - public_key.length))).len ∧
      (env.themis_secure_message_wrap private_key peer_public_key data
        (some (enc_data_length - 4 - public_key.length))).len
        ≤ enc_data_length - 4 - public_key.length)
    (hne : (env.themis_secure_message_wrap private_key peer_public_key data
        (some (enc_data_length - 4 - public_key.length))).out ≠ []) :
    u32le (peekN env ((smessage_encrypt env data private_key public_key peer_public_key
      enc_data enc_data_length).enc_data.take (smessage_encrypt env data private_key public_key
      peer_public_key enc_data enc_data_length).enc_data_length) 0 4) = public_key.length ∧
    4 + public_key.length < (smessage_encrypt env data private_key public_key
      peer_public_key enc_data enc_data_length).enc_data_length ∧
    (smessage_decrypt env ((smessage_encrypt env data private_key public_key peer_public_key
      enc_data enc_data_length).enc_data.take (smessage_encrypt env data private_key public_key
      peer_public_key enc_data enc_data_length).enc_data_length)
      (smessage_encrypt env data private_key public_key peer_public_key enc_data
        enc_data_length).enc_data_length own_private_key).unwrap_calls ≠ [] ∧
    ∀ c ∈ (smessage_decrypt env ((smessage_encrypt env data private_key public_key
      peer_public_key enc_data enc_data_length).enc_data.take (smessage_encrypt env data
      private_key public_key peer_public_key enc_data enc_data_length).enc_data_length)
      (smessage_encrypt env data private_key public_key peer_public_key enc_data
        enc_data_length).enc_data_length own_private_key).unwrap_calls,
      c = ⟨own_private_key, public_key, (env.themis_secure_message_wrap private_key
        peer_public_key data (some (enc_data_length - 4 - public_key.length))).out⟩ ∧
      c.public_key.length = public_key.length := by
  have hk : public_key.length < UINT32 := by
    unfold UINT32
    omega
  obtain ⟨h1, h2, h3⟩ := smessage_encrypt_ok env data private_key public_key peer_public_key
    enc_data enc_data_length hcode hcap hlen32 hk hprim
  have hpos := List.length_pos.mpr hne
  have hL : 4 + public_key.length + (env.themis_secure_message_wrap private_key
      peer_public_key data (some (enc_data_length - 4 - public_key.length))).out.length
      < UINT32 := by
    omega
  rw [h2, h3, peek_envelope_header, u32le_le32 _ hk,
    smessage_decrypt_envelope env public_key _ own_private_key hL hne]
  refine ⟨rfl, by omega, ?_, ?_⟩
  · dsimp only
    split_ifs <;> simp
  · dsimp only
    split_ifs <;> simp

/-- C9 on the toy primitives: both calls of unwrap get the key `[1, 2, 3]` and the
payload `[9, 5, 6]`. -/
theorem envelope_self_description_witness :
    (smessage_encrypt toyEnv [5, 6] [1, 2, 3] [1, 2, 3] [9] (List.replicate 12 255) 10).code = 0 ∧
    (smessage_decrypt toyEnv ((smessage_encrypt toyEnv [5, 6] [1, 2, 3] [1, 2, 3] [9]
      (List.replicate 12 255) 10).enc_data.take 10) 10 [9]).unwrap_calls
      = [⟨[9], [1, 2, 3], [9, 5, 6]⟩, ⟨[9], [1, 2, 3], [9, 5, 6]⟩] ∧
    ∀ c ∈ (smessage_decrypt toyEnv ((smessage_encrypt toyEnv [5, 6] [1, 2, 3] [1, 2, 3] [9]
      (List.replicate 12 255) 10).enc_data.take (smessage_encrypt toyEnv [5, 6] [1, 2, 3]
      [1, 2, 3] [9] (List.replicate 12 255) 10).enc_data_length)
      (smessage_encrypt toyEnv [5, 6] [1, 2, 3] [1, 2, 3] [9] (List.replicate 12 255)
        10).enc_data_length [9]).unwrap_calls,
      c = ⟨[9], [1, 2, 3], (toyEnv.themis_secure_message_wrap [1, 2, 3] [9] [5, 6]
        (some (10 - 4 - ([1, 2, 3] : Bytes).length))).out⟩ ∧
      c.public_key.length = ([1, 2, 3] : Bytes).length :=
  ⟨by decide, by decide,
    (envelope_self_description toyEnv [5, 6] [1, 2, 3] [1, 2, 3] [9] (List.replicate 12 255) 10
      [9] (by decide) (by decide) (by decide) (by decide) (by decide) (by decide)
      (by decide)).2.2.2⟩


/-! ## Lemmas on the store operations -/

theorem deleteKey_self (st : Store) (key : Key) : RedisModule_DeleteKey st key key = none := by
  simp only [RedisModule_DeleteKey, if_true]

theorem scell_decrypt_absent (env : Env) (st : Store) (key : Key) (pass : Bytes)
    (h : st key = none) : scell_decrypt env st key pass = ⟨-2, none, 0⟩ := by
  simp only [scell_decrypt, h]

theorem smessage_d_absent (env : Env) (st : Store) (key : Key) (private_key : Bytes)
    (h : st key = none) : smessage_d env st key private_key = ⟨-2, none, 0, [], []⟩ := by
  simp only [smessage_d, h]

/-- After the sizing call the key is opened: a failure of `scell_encrypt` from there
on is `-1` with the key deleted. -/
theorem scell_encrypt_failure (env : Env) (st : Store) (key_name : Key) (pass message : Bytes)
    (hopen : (env.themis_secure_cell_encrypt_seal pass [] message none).status
      = THEMIS_BUFFER_TOO_SMALL)
    (hfail : (scell_encrypt env st key_name pass message).1 ≠ 0) :
    (scell_encrypt env st key_name pass message).1 = -1 ∧
    (scell_encrypt env st key_name pass message).2 key_name = none := by
  unfold scell_encrypt at hfail ⊢
  simp only [hopen, ne_eq, not_true_eq_false, if_false] at hfail ⊢
  split
  · exact ⟨rfl, deleteKey_self _ _⟩
  · rename_i st1 hst1
    simp only [hst1] at hfail
    by_cases hs : (env.themis_secure_cell_encrypt_seal pass [] message
        (some (RedisModule_StringDMA st1 key_name).length)).status = THEMIS_SUCCESS
    · simp only [hs, not_true_eq_false, if_false] at hfail
    · simp only [hs, not_false_eq_true, if_true]
      exact ⟨trivial, deleteKey_self _ _⟩

/-- After key generation and a non-zero size the key is opened: a failure of
`smessage_e` from there on is `-1` with the key deleted. -/
theorem smessage_e_failure (env : Env) (st : Store) (key_name : Key)
    (public_key message : Bytes)
    (hgen : (env.themis_gen_ec_key_pair 10240 10240).1 = THEMIS_SUCCESS)
    (hopen : smessage_encrypt_len env (u32view message)
      (u32view (env.themis_gen_ec_key_pair 10240 10240).2.1)
      (u32view (env.themis_gen_ec_key_pair 10240 10240).2.2) (u32view public_key) ≠ 0)
    (hfail : (smessage_e env st key_name public_key message).1 ≠ 0) :
    (smessage_e env st key_name public_key message).1 = -1 ∧
    (smessage_e env st key_name public_key message).2 key_name = none := by
  unfold smessage_e at hfail ⊢
  simp only [hgen, ne_eq, not_true_eq_false, if_false, hopen] at hfail ⊢
  split
  · exact ⟨rfl, deleteKey_self _ _⟩
  · rename_i st1 hst1
    simp only [hst1] at hfail
    by_cases hs : (smessage_encrypt env (u32view message)
        (u32view (env.themis_gen_ec_key_pair 10240 10240).2.1)
        (u32view (env.themis_gen_ec_key_pair 10240 10240).2.2) (u32view public_key)
        (RedisModule_StringDMA st1 key_name)
        ((RedisModule_StringDMA st1 key_name).length % UINT32)).code = 0
    · simp only [hs, not_true_eq_false, if_false] at hfail
    · simp only [hs, not_false_eq_true, if_true]
      exact ⟨trivial, deleteKey_self _ _⟩

/-! ## C6: a failed encryption leaves no value -/

/-- C6. For `scell_encrypt` and for `smessage_e`, on every store and input: if the call
fails after the key was opened for resizing (the sizing call of seal answered, resp.
key generation succeeded and the envelope size is not zero), the return code is -1,
the key is absent from the store afterwards, and `scell_decrypt` / `smessage_d` on
that key return -2 with no plaintext, whatever the secret. -/
theorem failed_encryption_leaves_no_value (env : Env) (st : Store) (key_name : Key)
    (secret message : Bytes) :
    ((env.themis_secure_cell_encrypt_seal secret [] message none).status
        = THEMIS_BUFFER_TOO_SMALL →
      (scell_encrypt env st key_name secret message).1 ≠ 0 →
      (scell_encrypt env st key_name secret message).1 = -1 ∧
      (scell_encrypt env st key_name secret message).2 key_name = none ∧
      ∀ pass, scell_decrypt env (scell_encrypt env st key_name secret message).2 key_name pass
        = ⟨-2, none, 0⟩) ∧
    ((env.themis_gen_ec_key_pair 10240 10240).1 = THEMIS_SUCCESS →
      smessage_encrypt_len env (u32view message)
        (u32view (env.themis_gen_ec_key_pair 10240 10240).2.1)
        (u32view (env.themis_gen_ec_key_pair 10240 10240).2.2) (u32view secret) ≠ 0 →
      (smessage_e env st key_name secret message).1 ≠ 0 →
      (smessage_e env st key_name secret message).1 = -1 ∧
      (smessage_e env st key_name secret message).2 key_name = none ∧
      ∀ private_key,
        smessage_d env (smessage_e env st key_name secret message).2 key_name private_key
          = ⟨-2, none, 0, [], []⟩) := by
  constructor
  · intro hopen hfail
    obtain ⟨h1, h2⟩ := scell_encrypt_failure env st key_name secret message hopen hfail
    exact ⟨h1, h2, fun pass => scell_decrypt_absent env _ key_name pass h2⟩
  · intro hgen hopen hfail
    obtain ⟨h1, h2⟩ := smessage_e_failure env st key_name secret message hgen hopen hfail
    exact ⟨h1, h2, fun pk => smessage_d_absent env _ key_name pk h2⟩


/-- C6 on concrete runs: `scell_encrypt` whose fill call fails after the resize of an
existing string, and `smessage_e` on a key that holds a value of another type (the
resize itself fails). -/
theorem failed_encryption_leaves_no_value_witness :
    (scell_encrypt brokenFillEnv (setString emptyStore [107] [1, 2]) [107] [112] [104]).1 = -1 ∧
    (scell_encrypt brokenFillEnv (setString emptyStore [107] [1, 2]) [107] [112] [104]).2 [107]
      = none ∧
    (smessage_e toyEnv (fun _ => some Value.other) [107] [9] [104]).1 = -1 ∧
    (∀ private_key, smessage_d toyEnv (smessage_e toyEnv (fun _ => some Value.other) [107] [9]
      [104]).2 [107] private_key = ⟨-2, none, 0, [], []⟩) :=
  ⟨((failed_encryption_leaves_no_value brokenFillEnv (setString emptyStore [107] [1, 2]) [107]
      [112] [104]).1 (by decide) (by decide)).1,
    ((failed_encryption_leaves_no_value brokenFillEnv (setString emptyStore [107] [1, 2]) [107]
      [112] [104]).1 (by decide) (by decide)).2.1,
    ((failed_encryption_leaves_no_value toyEnv (fun _ => some Value.other) [107]
      [9] [104]).2 (by decide) (by decide) (by decide)).1,
    ((failed_encryption_leaves_no_value toyEnv (fun _ => some Value.other) [107]
      [9] [104]).2 (by decide) (by decide) (by decide)).2.2⟩

/-! ## C7: the return codes of the decrypt helpers -/

theorem resize_length (s : Bytes) (n : Nat) : (resize s n).length = n := by
  unfold resize
  simp only [List.length_append, List.length_take, List.length_replicate]
  omega

theorem writeAt_full (buf src : Bytes) (h : src.length = buf.length) :
    writeAt buf 0 src = src := by
  unfold writeAt
  rw [List.take_zero, List.nil_append, Nat.zero_add, ← h]
  apply List.take_left'
  rfl

/-- After a successful `RedisModule_StringTruncate` the key holds a string of the
requested length. -/
theorem truncate_ok (env : Env) (st st1 : Store) (key : Key) (n : Nat)
    (h : RedisModule_StringTruncate env st key n = some st1) :
    ∃ s, st1 key = some (Value.string s) ∧ s.length = n ∧ RedisModule_StringDMA st1 key = s := by
  unfold RedisModule_StringTruncate at h
  split at h
  · exact absurd h (by simp)
  · rename_i s0 _
    split_ifs at h
    injection h with h
    subst h
    exact ⟨resize s0 n, by simp [setString], resize_length _ _,
      by simp [RedisModule_StringDMA, setString]⟩
  · split_ifs at h
    injection h with h
    subst h
    exact ⟨resize [] n, by simp [setString], resize_length _ _,
      by simp [RedisModule_StringDMA, setString]⟩

/-- A successful `scell_encrypt` whose fill call wrote as many bytes as the sizing
call reported leaves exactly those bytes under the key. -/
theorem scell_encrypt_ok (env : Env) (st : Store) (key_name : Key) (pass message : Bytes)
    (henc : (scell_encrypt env st key_name pass message).1 = 0)
    (hexact : (env.themis_secure_cell_encrypt_seal pass [] message
        (some (env.themis_secure_cell_encrypt_seal pass [] message none).len)).out.length
      = (env.themis_secure_cell_encrypt_seal pass [] message none).len) :
    (scell_encrypt env st key_name pass message).2 key_name
      = some (Value.string (env.themis_secure_cell_encrypt_seal pass [] message
        (some (env.themis_secure_cell_encrypt_seal pass [] message none).len)).out) := by
  unfold scell_encrypt at henc ⊢
  by_cases hsz : (env.themis_secure_cell_encrypt_seal pass [] message none).status
      = THEMIS_BUFFER_TOO_SMALL
  · simp only [hsz, ne_eq, not_true_eq_false, if_false] at henc ⊢
    cases htr : RedisModule_StringTruncate env st key_name
        (env.themis_secure_cell_encrypt_seal pass [] message none).len with
    | none =>
      simp only [htr] at henc
      exact absurd henc (by decide)
    | some st1 =>
      obtain ⟨s, hs1, hs2, hs3⟩ := truncate_ok env st st1 key_name _ htr
      simp only [htr, hs3, hs2] at henc ⊢
      by_cases hst : (env.themis_secure_cell_encrypt_seal pass [] message
          (some (env.themis_secure_cell_encrypt_seal pass [] message none).len)).status
          = THEMIS_SUCCESS
      · simp only [hst, not_true_eq_false, if_false]
        rw [writeAt_full _ _ (by rw [hexact, hs2])]
        simp [dmaStore, hs1, setString]
      · simp only [hst, not_false_eq_true, if_true] at henc
        exact absurd henc (by decide)
  · simp only [hsz, ne_eq, not_false_eq_true, if_true] at henc
    exact absurd henc (by decide)


/-- C8. When `scell_encrypt(key, P, M)` returns 0, under the contract of seal and
unseal for `(P, M)` and a successful `malloc` of the plaintext buffer: the key holds
the sealed bytes, a string of exactly the sealed size; `scell_decrypt(key, P)`
returns 0 with plaintext exactly `M`; cell-set replies "OK" and cell-get replies `M`;
and for every passphrase under which unseal of the stored bytes fails,
`scell_decrypt` returns -1. -/
theorem scell_store_roundtrip (env : Env) (st : Store) (key_name : Key)
    (P M cmd1 cmd2 : Bytes)
    (henc : (scell_encrypt env st key_name P M).1 = 0)
    (hcontract : SealContract env P M)
    (hmalloc : env.malloc
      (env.themis_secure_cell_decrypt_seal P [] (sealed env P M) none).len = true) :
    (scell_encrypt env st key_name P M).2 key_name = some (Value.string (sealed env P M)) ∧
    (sealed env P M).length = sealedSize env P M ∧
    scell_decrypt env (scell_encrypt env st key_name P M).2 key_name P
      = ⟨0, some M, M.length⟩ ∧
    (cmd_scell_seal_encrypt env st [cmd1, key_name, P, M]).reply = Reply.SimpleString "OK" ∧
    (cmd_scell_seal_decrypt env (cmd_scell_seal_encrypt env st [cmd1, key_name, P, M]).store
      [cmd2, key_name, P]).reply = Reply.StringBuffer M ∧
    ∀ P2, UnsealFails env P2 (sealed env P M) →
      scell_decrypt env (scell_encrypt env st key_name P M).2 key_name P2 = ⟨-1, none,
        (scell_decrypt env (scell_encrypt env st key_name P M).2 key_name P2).decrypted_data_len⟩
      := by
  obtain ⟨hexact, hsz, hfill⟩ := hcontract
  have hstore := scell_encrypt_ok env st key_name P M henc hexact
  have hdec : scell_decrypt env (scell_encrypt env st key_name P M).2 key_name P
      = ⟨0, some M, M.length⟩ := by
    unfold scell_decrypt
    simp only [hstore]
    unfold sealed sealedSize at hsz hfill hmalloc
    simp [hsz, hmalloc, hfill]
  refine ⟨hstore, hexact, hdec, ?_, ?_, ?_⟩
  · simp [cmd_scell_seal_encrypt, henc]
  · simp [cmd_scell_seal_encrypt, henc, cmd_scell_seal_decrypt, hdec, scell_decrypt_switch]
  · intro P2 hfail
    unfold scell_decrypt
    simp only [hstore]
    unfold sealed sealedSize UnsealFails at *
    rcases hfail with h | h
    · simp [h]
    · split_ifs <;> simp

/-- C8 on the toy primitives: `cell_set("k1", "pw", "hello")`, then `cell_get` with
"pw" and with "wrong-pw". -/
theorem scell_store_roundtrip_witness :
    (scell_encrypt toyEnv emptyStore [107, 49] [112, 119] [104, 101, 108, 108, 111]).1 = 0 ∧
    SealContract toyEnv [112, 119] [104, 101, 108, 108, 111] ∧
    (scell_encrypt toyEnv emptyStore [107, 49] [112, 119] [104, 101, 108, 108, 111]).2 [107, 49]
      = some (Value.string [112, 119, 104, 101, 108, 108, 111]) ∧
    UnsealFails toyEnv [119, 114, 111, 110, 103, 45, 112, 119]
      (sealed toyEnv [112, 119] [104, 101, 108, 108, 111]) ∧
    (scell_decrypt toyEnv
      (scell_encrypt toyEnv emptyStore [107, 49] [112, 119] [104, 101, 108, 108, 111]).2
      [107, 49] [119, 114, 111, 110, 103, 45, 112, 119]).code = -1 ∧
    (cmd_scell_seal_decrypt toyEnv (cmd_scell_seal_encrypt toyEnv emptyStore
      [[99], [107, 49], [112, 119], [104, 101, 108, 108, 111]]).store
      [[103], [107, 49], [112, 119]]).reply = Reply.StringBuffer [104, 101, 108, 108, 111] :=
  ⟨by decide, ⟨by decide, by decide, by decide⟩, by decide, Or.inl (by decide), by decide,
    (scell_store_roundtrip toyEnv emptyStore [107, 49] [112, 119] [104, 101, 108, 108, 111]
      [99] [103] (by decide) ⟨by decide, by decide, by decide⟩ (by decide)).2.2.2.2.1⟩


/-! ## C1: secure-message round trip through the store -/

set_option maxRecDepth 100000

/-- Whatever the primitives: a stored string whose length is a multiple of 256 plus
at most 4 is rejected by `smessage_d`, because `smessage_dec` passes the length on
as a `uint8_t`. -/
theorem smessage_d_rejects_by_width (env : Env) (st : Store) (key_name : Key)
    (private_key s : Bytes) (hs : st key_name = some (Value.string s))
    (hlen : s.length % 256 ≤ 4) :
    smessage_d env st key_name private_key = ⟨-1, none, 0, span 0 4, []⟩ := by
  have hk := u32le_lt (peekN env s 0 4)
  have hg := guard_no_wrap _ hk
  have hle : s.length % UINT8 ≤ 4 + u32le (peekN env s 0 4) := by
    unfold UINT8
    omega
  simp only [smessage_d, hs, smessage_dec, smessage_decrypt, hg, hle, if_true]
  simp

/-- C1, at the failing input. Toy primitives (which satisfy the round-trip contract),
empty store, key "k", recipient key pair `([9], [9])`, message of 248 bytes.
`smessage_e` returns 0 and stores an envelope of 256 bytes; unwrap with the
recipient's private key on the stored payload yields the message; yet `smessage_d`
returns -1 with no plaintext, without calling unwrap. `smessage_decrypt` called on
the same bytes with the full 32-bit length returns 0 with the message, and a message
of 2 bytes (envelope of 10 bytes) does come back through `smessage_d`. -/
theorem smessage_roundtrip_fails_at_256 :
    (smessage_e toyEnv emptyStore [107] [9] message248).1 = 0 ∧
    RedisModule_StringDMA (smessage_e toyEnv emptyStore [107] [9] message248).2 [107]
      = le32 3 ++ [1, 2, 3] ++ ([9] ++ message248) ∧
    (RedisModule_StringDMA (smessage_e toyEnv emptyStore [107] [9] message248).2 [107]).length
      = 256 ∧
    toyEnv.themis_secure_message_unwrap [9] [1, 2, 3] ([9] ++ message248) (some 248)
      = ⟨THEMIS_SUCCESS, 248, message248⟩ ∧
    smessage_d toyEnv (smessage_e toyEnv emptyStore [107] [9] message248).2 [107] [9]
      = ⟨-1, none, 0, [0, 1, 2, 3], []⟩ ∧
    (smessage_decrypt toyEnv
      (RedisModule_StringDMA (smessage_e toyEnv emptyStore [107] [9] message248).2 [107])
      256 [9]).code = 0 ∧
    (smessage_decrypt toyEnv
      (RedisModule_StringDMA (smessage_e toyEnv emptyStore [107] [9] message248).2 [107])
      256 [9]).dec_data = some message248 ∧
    (smessage_d toyEnv (smessage_e toyEnv emptyStore [107] [9] [104, 105]).2 [107] [9]).code
      = 0 ∧
    (smessage_d toyEnv (smessage_e toyEnv emptyStore [107] [9] [104, 105]).2 [107] [9]).dec_data
      = some [104, 105] := by
  refine ⟨?_, ?_, ?_, ?_, ?_, ?_, ?_, ?_, ?_⟩ <;> decide

/-! ## C11: completion callbacks against the synchronous handlers -/

/-- The synchronous cell-set handler replies as `scell_encrypt_switch` says. -/
theorem cmd_scell_seal_encrypt_reply (env : Env) (st : Store) (cmd key_name pass message : Bytes) :
    (cmd_scell_seal_encrypt env st [cmd, key_name, pass, message]).reply
      = (scell_encrypt_switch (scell_encrypt env st key_name pass message).1).1 := by
  unfold cmd_scell_seal_encrypt scell_encrypt_switch
  dsimp only
  split_ifs <;> rfl

/-- C11, with the failing input. For every result code and payload the completion
callbacks of cell-set, cell-get and message-get emit the reply of the synchronous
handler, and so does that of message-set for code 0. For every other code
`smessage_enc_reply` emits "ERR secure seal encryption failed" where
`cmd_smessage_encrypt` emits "ERR secure message encryption failed": on a key that
holds a value of another type `smessage_e` returns -1, and the two variants of
message-set answer with different errors. -/
theorem async_sync_replies (res : Int) (payload : Option Bytes) (len : Nat) :
    (scell_enc_reply res).1 = (scell_encrypt_switch res).1 ∧
    (scell_dec_reply res payload len).1 = (scell_decrypt_switch res payload len).1 ∧
    (smessage_dec_reply res payload len).1 = (smessage_decrypt_switch res payload len).1 ∧
    (smessage_enc_reply 0).1 = (smessage_encrypt_switch 0).1 ∧
    (res ≠ 0 →
      (smessage_enc_reply res).1 = Reply.Error "ERR secure seal encryption failed" ∧
      (smessage_encrypt_switch res).1 = Reply.Error "ERR secure message encryption failed" ∧
      (smessage_enc_reply res).1 ≠ (smessage_encrypt_switch res).1) ∧
    (smessage_enc_thread toyEnv (fun _ => some Value.other) [[99], [107], [9], [104]]).1
      = -1 ∧
    (cmd_smessage_encrypt toyEnv (fun _ => some Value.other) [[99], [107], [9], [104]]).reply
      = Reply.Error "ERR secure message encryption failed" ∧
    (smessage_enc_reply
      (smessage_enc_thread toyEnv (fun _ => some Value.other) [[99], [107], [9], [104]]).1).1
      = Reply.Error "ERR secure seal encryption failed" := by
  refine ⟨?_, ?_, ?_, ?_, ?_, ?_, ?_, ?_⟩
  · unfold scell_enc_reply scell_encrypt_switch
    split_ifs <;> simp_all
  · unfold scell_dec_reply scell_decrypt_switch
    split_ifs <;> rfl
  · unfold smessage_dec_reply smessage_decrypt_switch
    split_ifs <;> rfl
  · decide
  · intro h
    simp [smessage_enc_reply, smessage_encrypt_switch, h]
  · decide
  · decide
  · decide

end RdThemis
